import Mathlib

/-!
Verification of the voxel-game core (chunks, run-length persistence codec,
meshing, terrain classification, chunk streaming) against its specification.

The Rust source is shallowly embedded: chunk voxel arrays (`Box<[V; CHUNK_SIZE]>`)
become Lean lists in the same linear order, machine integers become `Nat`/`Int`,
`f64`/`f32` arithmetic in the classification and UV formulas becomes exact `ℚ`
arithmetic (all constants involved are decimal fractions and all comparisons in
the claims are taken far from rounding boundaries), and fallible operations
(Rust panics / assertions) return `Option`.
-/

set_option linter.unusedVariables false

namespace VoxelGame

/-- Chunk edge width, `CHUNK_WIDTH = 16` (src/chunk.rs). -/
def CHUNK_WIDTH : Nat := 16

/-- Number of voxels in a chunk, `CHUNK_SIZE = CHUNK_WIDTH.pow(3) = 4096` (src/chunk.rs). -/
def CHUNK_SIZE : Nat := CHUNK_WIDTH ^ 3

/-- The six face directions (src/face.rs), in declaration order
`Left, Right, Bottom, Top, Back, Front`. -/
inductive Face where
  | left
  | right
  | bottom
  | top
  | back
  | front
deriving DecidableEq, Repr

/-- `Face::ALL` (src/face.rs). -/
def Face.ALL : List Face := [.left, .right, .bottom, .top, .back, .front]

/-- The `Voxel` capability trait (src/voxel.rs). `Default` is modelled by
`Inhabited`; the `f64` lerp parameter is modelled by `ℚ`; `Raw` is modelled
by `Nat` (the Rust side uses an unsigned integer encoding). -/
class Voxel (V : Type) extends Inhabited V where
  deq : DecidableEq V
  default_empty : V
  default_opaque : V
  is_opaque : V → Bool
  lerp : V → V → ℚ → V
  raw : V → Nat
  all : List V

attribute [instance] Voxel.deq

/-- The `Block` enum (src/block.rs): `Air = 0, Stone, Dirt, Grass`. -/
inductive Block where
  | air
  | stone
  | dirt
  | grass
deriving DecidableEq, Repr

instance : Inhabited Block := ⟨Block.air⟩

/-- `Block::lerp` (src/block.rs): `if t < 0.5 { a } else { b }`. -/
def Block.lerp (a b : Block) (t : ℚ) : Block :=
  if t < 1/2 then a else b

/-- `Block::is_opaque` (src/block.rs): false only for `Air`. -/
def Block.is_opaque : Block → Bool
  | .air => false
  | _ => true

/-- `Block::raw` (src/block.rs): the discriminant in declaration order. -/
def Block.raw : Block → Nat
  | .air => 0
  | .stone => 1
  | .dirt => 2
  | .grass => 3

instance : Voxel Block where
  deq := inferInstance
  default_empty := .air
  default_opaque := .stone
  is_opaque := Block.is_opaque
  lerp := Block.lerp
  raw := Block.raw
  all := [.air, .stone, .dirt, .grass]

/-- A chunk's voxel storage `Box<[V; CHUNK_SIZE]>` (src/chunk.rs), embedded as a
list of its `CHUNK_SIZE` voxels in the fixed linear order used by `to_index`. -/
abbrev Chunk (V : Type) := List V

/-- `Chunk::to_index` (src/chunk.rs): `x * W² + y * W + z`. The debug assertion
`x < W ∧ y < W ∧ z < W` is the in-bounds precondition verified separately. -/
def toIndex (p : Nat × Nat × Nat) : Nat :=
  p.1 * CHUNK_WIDTH ^ 2 + p.2.1 * CHUNK_WIDTH + p.2.2

/-- The in-bounds precondition of `Chunk::to_index`'s debug assertion. -/
def validPos (p : Nat × Nat × Nat) : Prop :=
  p.1 < CHUNK_WIDTH ∧ p.2.1 < CHUNK_WIDTH ∧ p.2.2 < CHUNK_WIDTH

instance (p : Nat × Nat × Nat) : Decidable (validPos p) := by
  unfold validPos; infer_instance

/-- `Chunk::get` (src/chunk.rs): index into the dense array at `to_index pos`. -/
def chunkGet {V : Type} [Inhabited V] (c : Chunk V) (p : Nat × Nat × Nat) : V :=
  c.getD (toIndex p) default

section RLE

variable {V : Type} [DecidableEq V]

/-- Loop body of `Chunk::to_rle` (src/chunk.rs): walking the remaining voxels
with the current run `(count, last)`; on exit the in-progress run is flushed.
A run is extended only while the value matches and `count < u16::MAX = 65535`. -/
def toRLEAux (count : Nat) (last : V) : List V → List (Nat × V)
  | [] => [(count, last)]
  | v :: rest =>
    if v = last ∧ count < 65535 then toRLEAux (count + 1) last rest
    else (count, last) :: toRLEAux 1 v rest

/-- `Chunk::to_rle` (src/chunk.rs): `count` starts at 0 and `last` at the first
voxel, and the loop runs over the whole array (a real chunk is never empty;
the `[]` case is unreachable for length-`CHUNK_SIZE` input). -/
def toRLE : List V → List (Nat × V)
  | [] => []
  | v :: rest => toRLEAux 0 v (v :: rest)

/-- Expansion of a run list into voxels, as done by the loop of
`Chunk::from_rle` (src/chunk.rs): each `(count, value)` contributes
`count` repeated cells, in order. -/
def rleExpand (rle : List (Nat × V)) : List V :=
  rle.flatMap fun p => List.replicate p.1 p.2

/-- `Chunk::from_rle` (src/chunk.rs): expand the runs in order, then
`assert_eq!(data.len(), CHUNK_SIZE)`; the fatal assertion is modelled by
`none`, success by `some`. -/
def fromRLE (rle : List (Nat × V)) : Option (Chunk V) :=
  let data := rleExpand rle
  if data.length = CHUNK_SIZE then some data else none

end RLE

/-- A chunk's six optional neighbor references `&[Option<&Chunk<V>>; 6]`
(src/chunk.rs), indexed by face direction (`neighbors[face as usize]`). -/
abbrev Neighbors (V : Type) := Face → Option (Chunk V)

/-- The empty neighbor set (all six references absent). -/
def noNeighbors (V : Type) : Neighbors V := fun _ => none

/-- `Chunk::cull_face` (src/chunk.rs): true when the cell adjacent to `pos` in
direction `face` is opaque. At a chunk edge the adjacent cell is read from the
corresponding neighbor chunk's opposite boundary layer, and an absent neighbor
yields `false` (`Option::is_some_and`). -/
def cullFace {V : Type} [Voxel V] (c : Chunk V) (p : Nat × Nat × Nat) (face : Face)
    (nbrs : Neighbors V) : Bool :=
  match p, face with
  | (x, y, z), .left =>
    if x = 0 then
      match nbrs .left with
      | some n => Voxel.is_opaque (chunkGet n (CHUNK_WIDTH - 1, y, z))
      | none => false
    else Voxel.is_opaque (chunkGet c (x - 1, y, z))
  | (x, y, z), .right =>
    if x = CHUNK_WIDTH - 1 then
      match nbrs .right with
      | some n => Voxel.is_opaque (chunkGet n (0, y, z))
      | none => false
    else Voxel.is_opaque (chunkGet c (x + 1, y, z))
  | (x, y, z), .bottom =>
    if y = 0 then
      match nbrs .bottom with
      | some n => Voxel.is_opaque (chunkGet n (x, CHUNK_WIDTH - 1, z))
      | none => false
    else Voxel.is_opaque (chunkGet c (x, y - 1, z))
  | (x, y, z), .top =>
    if y = CHUNK_WIDTH - 1 then
      match nbrs .top with
      | some n => Voxel.is_opaque (chunkGet n (x, 0, z))
      | none => false
    else Voxel.is_opaque (chunkGet c (x, y + 1, z))
  | (x, y, z), .back =>
    if z = 0 then
      match nbrs .back with
      | some n => Voxel.is_opaque (chunkGet n (x, y, CHUNK_WIDTH - 1))
      | none => false
    else Voxel.is_opaque (chunkGet c (x, y, z - 1))
  | (x, y, z), .front =>
    if z = CHUNK_WIDTH - 1 then
      match nbrs .front with
      | some n => Voxel.is_opaque (chunkGet n (x, y, 0))
      | none => false
    else Voxel.is_opaque (chunkGet c (x, y, z + 1))

/-- The coordinates `Chunk::cull_face` (src/chunk.rs) passes to `Chunk::get`
(on its own array or on a neighbor's), mirroring `cull_face` branch for
branch; used to verify the in-bounds precondition of `to_index`. -/
def cullFaceReads (p : Nat × Nat × Nat) (face : Face) : List (Nat × Nat × Nat) :=
  match p, face with
  | (x, y, z), .left =>
    if x = 0 then [(CHUNK_WIDTH - 1, y, z)] else [(x - 1, y, z)]
  | (x, y, z), .right =>
    if x = CHUNK_WIDTH - 1 then [(0, y, z)] else [(x + 1, y, z)]
  | (x, y, z), .bottom =>
    if y = 0 then [(x, CHUNK_WIDTH - 1, z)] else [(x, y - 1, z)]
  | (x, y, z), .top =>
    if y = CHUNK_WIDTH - 1 then [(x, 0, z)] else [(x, y + 1, z)]
  | (x, y, z), .back =>
    if z = 0 then [(x, y, CHUNK_WIDTH - 1)] else [(x, y, z - 1)]
  | (x, y, z), .front =>
    if z = CHUNK_WIDTH - 1 then [(x, y, 0)] else [(x, y, z + 1)]

/-- The local positions visited by the `x`/`y`/`z` triple loop of
`Chunk::generate_mesh` (src/chunk.rs), in loop order. -/
def allPositions : List (Nat × Nat × Nat) :=
  (List.range CHUNK_WIDTH).flatMap fun x =>
    (List.range CHUNK_WIDTH).flatMap fun y =>
      (List.range CHUNK_WIDTH).map fun z => (x, y, z)

/-- The (position, face) unit quads emitted by `Chunk::generate_mesh`
(src/chunk.rs): for each voxel in loop order, non-opaque voxels are skipped
(`continue`), then for each face in `Face::ALL`, `add_face_if_visible` emits a
quad unless `cull_face` holds (it returns early when `cull_face` is true). -/
def generateMeshFaces {V : Type} [Voxel V] (c : Chunk V) (nbrs : Neighbors V) :
    List ((Nat × Nat × Nat) × Face) :=
  allPositions.flatMap fun p =>
    if Voxel.is_opaque (chunkGet c p) then
      (Face.ALL.filter fun f => !cullFace c p f nbrs).map fun f => (p, f)
    else []

/-- `Face::positions` (src/face.rs): the 4 quad corners between the two given
corners, in the direction-specific fixed winding; f32 modelled by ℚ. -/
def facePositions (face : Face) (c0 c1 : ℚ × ℚ × ℚ) : List (ℚ × ℚ × ℚ) :=
  match c0, c1, face with
  | (x0, y0, z0), (x1, y1, z1), .left =>
    [(x0, y0, z1), (x0, y1, z1), (x0, y1, z0), (x0, y0, z0)]
  | (x0, y0, z0), (x1, y1, z1), .right =>
    [(x1, y0, z0), (x1, y1, z0), (x1, y1, z1), (x1, y0, z1)]
  | (x0, y0, z0), (x1, y1, z1), .bottom =>
    [(x1, y0, z1), (x0, y0, z1), (x0, y0, z0), (x1, y0, z0)]
  | (x0, y0, z0), (x1, y1, z1), .top =>
    [(x1, y1, z0), (x0, y1, z0), (x0, y1, z1), (x1, y1, z1)]
  | (x0, y0, z0), (x1, y1, z1), .back =>
    [(x0, y0, z0), (x0, y1, z0), (x1, y1, z0), (x1, y0, z0)]
  | (x0, y0, z0), (x1, y1, z1), .front =>
    [(x1, y0, z1), (x1, y1, z1), (x0, y1, z1), (x0, y0, z1)]

/-- The position stream of the naive mesh: each emitted quad pushes the 4
corners `face.positions([x,y,z], [x+1,y+1,z+1])` (src/chunk.rs,
`add_face_if_visible`). -/
def generateMeshPositions {V : Type} [Voxel V] (c : Chunk V) (nbrs : Neighbors V) :
    List (ℚ × ℚ × ℚ) :=
  (generateMeshFaces c nbrs).flatMap fun q =>
    facePositions q.2 ((q.1.1 : ℚ), (q.1.2.1 : ℚ), (q.1.2.2 : ℚ))
      ((q.1.1 : ℚ) + 1, (q.1.2.1 : ℚ) + 1, (q.1.2.2 : ℚ) + 1)

/-- The six triangle indices one quad appends (src/chunk.rs,
`add_face_if_visible`): `base, base+1, base+2, base, base+2, base+3` where
`base` is the number of vertices already pushed, i.e. 4 per earlier quad. -/
def quadIndices (base : Nat) : List Nat :=
  [base, base + 1, base + 2, base, base + 2, base + 3]

/-- The index stream of the naive mesh: quad `i` starts at vertex `4 * i`. -/
def generateMeshIndices {V : Type} [Voxel V] (c : Chunk V) (nbrs : Neighbors V) :
    List Nat :=
  (List.range (generateMeshFaces c nbrs).length).flatMap fun i => quadIndices (4 * i)

/-- The fixed atlas row per face direction (src/chunk.rs,
`add_face_if_visible`): `v0 = unit_v * row`. -/
def faceRow : Face → Nat
  | .left => 0
  | .bottom => 1
  | .back => 2
  | .right => 3
  | .top => 4
  | .front => 5

/-- The UV rectangle `(u0, v0, u1, v1)` computed in `add_face_if_visible`
(src/chunk.rs): `unit_u = ((all().len() - 1) as f32).recip()`,
`unit_v = (6 as f32).recip()`, the atlas column is the voxel's index in
`all()` (`position(|v| v == voxel)`), and the row is fixed per face
direction; f32 modelled by ℚ. -/
def uvRect (V : Type) [Voxel V] (voxel : V) (face : Face) : ℚ × ℚ × ℚ × ℚ :=
  let unit_u : ℚ := (((Voxel.all (V := V)).length - 1 : ℕ) : ℚ)⁻¹
  let unit_v : ℚ := (6 : ℚ)⁻¹
  let atlas_index : ℕ := (Voxel.all (V := V)).indexOf voxel
  let u0 : ℚ := (atlas_index : ℚ) * unit_u
  let v0 : ℚ := unit_v * (faceRow face : ℚ)
  (u0, v0, u0 + unit_u, v0 + unit_v)

/-- The four UV corners one quad appends, `[[u0,v1],[u0,v0],[u1,v0],[u1,v1]]`
(src/chunk.rs, `add_face_if_visible`). -/
def uvQuad (V : Type) [Voxel V] (voxel : V) (face : Face) : List (ℚ × ℚ) :=
  match uvRect V voxel face with
  | (u0, v0, u1, v1) => [(u0, v1), (u0, v0), (u1, v0), (u1, v1)]

/-- The UV stream of the naive mesh (src/chunk.rs, `add_face_if_visible`). -/
def generateMeshUVs {V : Type} [Voxel V] (c : Chunk V) (nbrs : Neighbors V) :
    List (ℚ × ℚ) :=
  (generateMeshFaces c nbrs).flatMap fun q => uvQuad V (chunkGet c q.1) q.2

/-- A minimal 3-variant voxel set (one empty plus two opaque variants), the
instantiation named by the spec's atlas-UV scenario. -/
inductive TVox where
  | empty
  | solidA
  | solidB
deriving DecidableEq, Repr

instance : Inhabited TVox := ⟨TVox.empty⟩

instance : Voxel TVox where
  deq := inferInstance
  default_empty := .empty
  default_opaque := .solidA
  is_opaque
    | .empty => false
    | _ => true
  lerp a b t := if t < 1/2 then a else b
  raw
    | .empty => 0
    | .solidA => 1
    | .solidB => 2
  all := [.empty, .solidA, .solidB]


/-- Bit index of cell `mask[b][a]` of the 16×16 greedy-meshing mask
(src/chunk.rs, `greedy_quads`), encoded into a single natural number. -/
def maskBit (a b : Nat) : Nat := b * CHUNK_WIDTH + a

/-- Read `mask[b][a]`. -/
def maskGet (mask : Nat) (a b : Nat) : Bool := mask.testBit (maskBit a b)

/-- Write `mask[b][a] = true`. -/
def maskSet (mask : Nat) (a b : Nat) : Nat := mask ||| 2 ^ maskBit a b

/-- The `while a + width < CHUNK_WIDTH` width-extension loop of `greedy_quads`
(src/chunk.rs): grow while the next cell `[a+width, b, c]` is not culled, holds
the same voxel value, and is unmasked. The loop body runs fewer than
`CHUNK_WIDTH` times (the guard fails once `a + width` reaches `CHUNK_WIDTH`),
so with `CHUNK_WIDTH` units of fuel the fuel-exhaustion case is unreachable. -/
def extendWidth {V : Type} [Voxel V] (ch : Chunk V) (nbrs : Neighbors V) (face : Face)
    (a b cc : Nat) (block : V) (mask : Nat) : Nat → Nat → Nat
  | 0, width => width
  | fuel + 1, width =>
    if a + width < CHUNK_WIDTH then
      if cullFace ch (a + width, b, cc) face nbrs = true
          ∨ chunkGet ch (a + width, b, cc) ≠ block
          ∨ maskGet mask (a + width) b = true then width
      else extendWidth ch nbrs face a b cc block mask fuel (width + 1)
    else width

/-- The inner `for w in 0..width` test of the height-extension loop of
`greedy_quads` (src/chunk.rs), preserving the source's coordinate order
`[a + w, c, b + height]` (not `[a + w, b + height, c]`). -/
def rowBlocked {V : Type} [Voxel V] (ch : Chunk V) (nbrs : Neighbors V) (face : Face)
    (a b cc width : Nat) (mask : Nat) (hh : Nat) : Bool :=
  (List.range width).any fun w =>
    cullFace ch (a + w, cc, b + hh) face nbrs || maskGet mask (a + w) (b + hh)

/-- The `'outer: while b + height < CHUNK_WIDTH` height-extension loop of
`greedy_quads` (src/chunk.rs): grow while no cell of the next row is culled or
masked (the voxel value is not rechecked here, as in the source). As with
`extendWidth`, `CHUNK_WIDTH` units of fuel strictly exceed the possible number
of iterations, so the fuel-exhaustion case is unreachable. -/
def extendHeight {V : Type} [Voxel V] (ch : Chunk V) (nbrs : Neighbors V) (face : Face)
    (a b cc width : Nat) (mask : Nat) : Nat → Nat → Nat
  | 0, height => height
  | fuel + 1, height =>
    if b + height < CHUNK_WIDTH then
      if rowBlocked ch nbrs face a b cc width mask height = true then height
      else extendHeight ch nbrs face a b cc width mask fuel (height + 1)
    else height

/-- Mark the covered `width × height` rectangle in the mask (src/chunk.rs,
`greedy_quads`): `mask[b+h][a+w] = true` for all `h < height`, `w < width`. -/
def markRect (mask : Nat) (a b width height : Nat) : Nat :=
  (List.range height).foldl
    (fun m hh => (List.range width).foldl (fun m2 w => maskSet m2 (a + w) (b + hh)) m)
    mask

/-- One merged quad emitted by `greedy_quads`: its in-slice start cell
`(a, b)`, its slice coordinate `c`, and its merged extent. -/
structure GreedyQuad where
  a : Nat
  b : Nat
  c : Nat
  width : Nat
  height : Nat
deriving DecidableEq, Repr

/-- Body of the innermost loop of `greedy_quads` (src/chunk.rs) at cell
`(a, b, c)`: skip when masked (`continue`); when not culled, compute the merged
extent, mark the rectangle, and emit the quad; a culled cell leaves the state
unchanged. -/
def greedyCell {V : Type} [Voxel V] (ch : Chunk V) (nbrs : Neighbors V) (face : Face)
    (cc b a : Nat) (st : Nat × List GreedyQuad) : Nat × List GreedyQuad :=
  let mask := st.1
  let quads := st.2
  if maskGet mask a b = true then st
  else if cullFace ch (a, b, cc) face nbrs = true then st
  else
    let block := chunkGet ch (a, b, cc)
    let width := extendWidth ch nbrs face a b cc block mask CHUNK_WIDTH 1
    let height := extendHeight ch nbrs face a b cc width mask CHUNK_WIDTH 1
    (markRect mask a b width height, quads ++ [⟨a, b, cc, width, height⟩])

/-- The emitted quad list of a `greedy_quads` fold state (its second
component). -/
def stateQuads (st : Nat × List GreedyQuad) : List GreedyQuad := st.2

/-- `Chunk::greedy_quads` (src/chunk.rs) for one face direction, returning the
emitted merged quads in order. The mask is created once before the `c` loop
and — exactly as in the source — never reset between slices. -/
def greedyQuads {V : Type} [Voxel V] (ch : Chunk V) (face : Face) (nbrs : Neighbors V) :
    List GreedyQuad :=
  stateQuads ((List.range CHUNK_WIDTH).foldl (fun st cc =>
    (List.range CHUNK_WIDTH).foldl (fun st2 b =>
      (List.range CHUNK_WIDTH).foldl (fun st3 a =>
        greedyCell ch nbrs face cc b a st3) st2) st) (0, []))

/-- The invariant carried through the `greedy_quads` folds: the quad list is
nonempty and every emitted quad has a positive merged extent. -/
def GoodGreedyState (st : Nat × List GreedyQuad) : Prop :=
  stateQuads st ≠ [] ∧ ∀ q ∈ stateQuads st, 1 ≤ q.width ∧ 1 ≤ q.height

/-- Decomposition of a greedy `width × height` quad back into the unit cells
whose face it covers, following the quad-geometry mapping of `greedy_quads`
(src/chunk.rs): for Left/Right the quad spans `(c, a..a+width, b..b+height)`,
for Bottom/Top `(a..a+width, c, b..b+height)`, for Back/Front
`(a..a+width, b..b+height, c)`. -/
def quadUnitCells (face : Face) (q : GreedyQuad) : List (Nat × Nat × Nat) :=
  (List.range q.width).flatMap fun w =>
    (List.range q.height).map fun hh =>
      match face with
      | .left | .right => (q.c, q.a + w, q.b + hh)
      | .bottom | .top => (q.a + w, q.c, q.b + hh)
      | .back | .front => (q.a + w, q.b + hh, q.c)

/-- A chunk entirely filled with `Air`. -/
def airChunk : Chunk Block := List.replicate CHUNK_SIZE Block.air

/-- Whether `pos` lies on the chunk boundary toward direction `face`, i.e.
whether `cull_face` (src/chunk.rs) takes its neighbor-chunk branch there. -/
def atEdge (p : Nat × Nat × Nat) (f : Face) : Prop :=
  match p, f with
  | (x, _, _), .left => x = 0
  | (x, _, _), .right => x = CHUNK_WIDTH - 1
  | (_, y, _), .bottom => y = 0
  | (_, y, _), .top => y = CHUNK_WIDTH - 1
  | (_, _, z), .back => z = 0
  | (_, _, z), .front => z = CHUNK_WIDTH - 1

instance (p : Nat × Nat × Nat) (f : Face) : Decidable (atEdge p f) := by
  obtain ⟨x, y, z⟩ := p
  cases f <;> · unfold atEdge; infer_instance

/-- The same-chunk cell read by the non-edge branch of `cull_face`
(src/chunk.rs): the cell adjacent to `p` in direction `f`. -/
def adjacentPos (p : Nat × Nat × Nat) (f : Face) : Nat × Nat × Nat :=
  match p, f with
  | (x, y, z), .left => (x - 1, y, z)
  | (x, y, z), .right => (x + 1, y, z)
  | (x, y, z), .bottom => (x, y - 1, z)
  | (x, y, z), .top => (x, y + 1, z)
  | (x, y, z), .back => (x, y, z - 1)
  | (x, y, z), .front => (x, y, z + 1)

/-- The voxel-classification of `Chunk::<Block>::generate` (src/chunk.rs) as a
function of the world-`y` coordinate `wy` and the two noise-field samples at
that voxel: `height = surface_heightmap([wx, wz], seed)` and
`density = cave_depth_field([wx, wy, wz], seed)`. The noise fields themselves
are floating-point and are abstracted as the `ℚ`-valued parameters sampled by
the generator; the branch structure below is the source's, verbatim. -/
def generateBlock (wy height density : ℚ) : Block :=
  if wy < height - 16 then
    if density < -(3/10) then Block.air
    else if density > 3/10 then Block.air
    else Block.lerp Block.air Block.stone ((density + 3/10) / (6/10))
  else if wy < height - 8 then Block.stone
  else if wy < height - 4 then Block.dirt
  else if wy < height then Block.grass
  else Block.air

/-- The deep-region rule exactly as the claim states it: strictly below the
soil/stone bands (`wy < height - 16`), density on the far side of the iso-level
band (`density > 0.3`) yields an opaque voxel. -/
def claimedDeepRule : Prop :=
  ∀ wy height density : ℚ, wy < height - 16 → 3/10 < density →
    Block.is_opaque (generateBlock wy height density) = true

/-- A chunk-grid position `ChunkPos` (src/chunk.rs): three signed integers. -/
abbrev ChunkPos := Int × Int × Int

/-- `RENDER_DISTANCE` (src/world.rs). -/
def RENDER_DISTANCE : Nat := 8

/-- `CHUNKS_PER_FRAME` (src/world.rs). -/
def CHUNKS_PER_FRAME : Nat := 8

/-- The signed range `-r ..= r` swept by each of the three nested loops of
`update_chunk_manager` (src/world.rs). -/
def intRange (r : Nat) : List Int :=
  (List.range (2 * r + 1)).map fun (i : Nat) => ((i : Int) - (r : Int))

/-- The desired-chunk sweep of `update_chunk_manager` (src/world.rs): for every
`(dx, dy, dz)` in the cubic range `[-r, r]³`, keep `ChunkPos(p + d)` when
`dx² + dy² + dz² ≤ r²`. The source performs this comparison after casting both
sides to f32, which is exact for every value in range (all are at most
`3 · r²` ≤ 192 for the configured radius, far below 2²⁴). -/
def desiredChunks (p : ChunkPos) (r : Nat) : List ChunkPos :=
  (intRange r).flatMap fun dx =>
    (intRange r).flatMap fun dy =>
      ((intRange r).filter fun dz => dx ^ 2 + dy ^ 2 + dz ^ 2 ≤ (r : Int) ^ 2).map fun dz =>
        (p.1 + dx, p.2.1 + dy, p.2.2 + dz)

/-- `ChunkManager` (src/world.rs): the loaded set and the two FIFO queues;
entities are modelled as `Nat` handles, the `HashSet` as a list of its
elements. -/
structure ChunkManager where
  loaded : List ChunkPos
  load_queue : List ChunkPos
  unload_queue : List Nat

/-- One iteration of the `for _ in 0..CHUNKS_PER_FRAME` loop of
`load_local_chunks` (src/world.rs): pop the front of the load queue (if any);
an already-loaded position is skipped (`continue`), otherwise a chunk is
spawned for it (recorded in the second component) and the position is inserted
into the loaded set. -/
def loadOne (st : ChunkManager × List ChunkPos) : ChunkManager × List ChunkPos :=
  match st.1.load_queue with
  | [] => st
  | pos :: rest =>
    if pos ∈ st.1.loaded then ({ st.1 with load_queue := rest }, st.2)
    else
      ({ st.1 with load_queue := rest, loaded := pos :: st.1.loaded }, st.2 ++ [pos])

/-- The queue-draining skeleton of `load_local_chunks` (src/world.rs):
`CHUNKS_PER_FRAME` iterations of the load loop, then one `pop_front` from the
unload queue (the popped entity is despawned when it still exists). Returns
the new manager state and the spawned chunk positions. -/
def loadLocalChunks (m : ChunkManager) : ChunkManager × List ChunkPos :=
  match (loadOne^[CHUNKS_PER_FRAME] (m, [])).1.unload_queue with
  | [] => loadOne^[CHUNKS_PER_FRAME] (m, [])
  | _ :: rest =>
    ({ (loadOne^[CHUNKS_PER_FRAME] (m, [])).1 with unload_queue := rest },
      (loadOne^[CHUNKS_PER_FRAME] (m, [])).2)

section RLELemmas

variable {V : Type} [DecidableEq V]

lemma toRLEAux_expand (count : Nat) (last : V) (l : List V) :
    rleExpand (toRLEAux count last l) = List.replicate count last ++ l := by
  induction l generalizing count last with
  | nil => simp [toRLEAux, rleExpand]
  | cons v rest ih =>
    rw [toRLEAux]
    by_cases h : v = last ∧ count < 65535
    · rw [if_pos h, ih, h.1, List.replicate_succ']
      simp
    · rw [if_neg h]
      simp only [rleExpand, List.flatMap_cons] at *
      rw [ih]
      simp

lemma toRLE_expand (c : List V) (hne : c ≠ []) : rleExpand (toRLE c) = c := by
  cases c with
  | nil => exact absurd rfl hne
  | cons v rest =>
    rw [toRLE, toRLEAux_expand]
    simp

omit [DecidableEq V] in
lemma rleExpand_length (rle : List (Nat × V)) :
    (rleExpand rle).length = (rle.map Prod.fst).sum := by
  simp [rleExpand, List.length_flatMap, Function.comp_def]

lemma toRLE_cons (v : V) (rest : List V) : toRLE (v :: rest) = toRLEAux 1 v rest := by
  rw [toRLE, toRLEAux, if_pos ⟨rfl, by norm_num⟩]

lemma toRLEAux_pos (count : Nat) (last : V) (l : List V) (hc : 0 < count) :
    ∀ p ∈ toRLEAux count last l, 0 < p.1 := by
  induction l generalizing count last with
  | nil => simp [toRLEAux, hc]
  | cons v rest ih =>
    rw [toRLEAux]
    by_cases h : v = last ∧ count < 65535
    · rw [if_pos h]; exact ih _ _ (Nat.succ_pos _)
    · rw [if_neg h]
      intro p hp
      rcases List.mem_cons.1 hp with h1 | h2
      · subst h1; exact hc
      · exact ih _ _ Nat.one_pos p h2

lemma toRLEAux_sum (count : Nat) (last : V) (l : List V) :
    ((toRLEAux count last l).map Prod.fst).sum = count + l.length := by
  induction l generalizing count last with
  | nil => simp [toRLEAux]
  | cons v rest ih =>
    rw [toRLEAux]
    by_cases h : v = last ∧ count < 65535
    · rw [if_pos h, ih]; simp; omega
    · rw [if_neg h]; simp [ih]; omega

lemma toRLEAux_head (count : Nat) (last : V) (l : List V) :
    ∃ cnt, (toRLEAux count last l).head? = some (cnt, last) := by
  induction l generalizing count last with
  | nil => exact ⟨count, rfl⟩
  | cons v rest ih =>
    rw [toRLEAux]
    by_cases h : v = last ∧ count < 65535
    · rw [if_pos h]; exact ih _ _
    · rw [if_neg h]; exact ⟨count, rfl⟩

lemma toRLEAux_chain (count : Nat) (last : V) (l : List V) (hc : count ≤ 65535) :
    List.Chain' (fun p q : Nat × V => p.2 = q.2 → p.1 = 65535) (toRLEAux count last l) := by
  induction l generalizing count last with
  | nil => simp [toRLEAux]
  | cons v rest ih =>
    rw [toRLEAux]
    by_cases h : v = last ∧ count < 65535
    · rw [if_pos h]; exact ih _ _ h.2
    · rw [if_neg h]
      obtain ⟨cnt, hhd⟩ := toRLEAux_head (V := V) 1 v rest
      refine List.chain'_cons'.2 ⟨?_, ih 1 v (by norm_num)⟩
      intro q hq heq
      rw [hhd] at hq
      cases hq
      push_neg at h
      simp only at heq
      subst heq
      exact Nat.le_antisymm hc (h rfl)

lemma toRLEAux_getLast (count : Nat) (last : V) (l : List V) :
    (toRLEAux count last l).getLast?.map Prod.snd = some (l.getLastD last) := by
  induction l generalizing count last with
  | nil => simp [toRLEAux]
  | cons v rest ih =>
    rw [toRLEAux]
    by_cases h : v = last ∧ count < 65535
    · rw [if_pos h, ih, h.1]
      simp only [List.getLastD_cons]
    · rw [if_neg h]
      have htail := ih 1 v
      cases htl : toRLEAux 1 v rest with
      | nil => rw [htl] at htail; simp at htail
      | cons q qs =>
        rw [htl] at htail
        rw [List.getLast?_cons_cons, htail]
        cases rest with
        | nil => simp
        | cons hh tt => simp only [List.getLastD_cons]

lemma getLast?_eq_getLastD {α : Type} (l : List α) (d : α) (hne : l ≠ []) :
    l.getLast? = some (l.getLastD d) := by
  obtain ⟨x, hx⟩ := Option.isSome_iff_exists.1 (List.getLast?_isSome.2 hne)
  rw [hx, List.getLastD_eq_getLast?, hx]
  rfl

/-- C1: round-trip of the persistence codec: for every chunk `c` of
`W³ = 4096` voxels, `Chunk::from_rle(c.to_rle())` succeeds and reproduces `c`
exactly — in particular cell-for-cell at every one of the 4096 linear
indices. -/
theorem rle_roundtrip {V : Type} [DecidableEq V] [Inhabited V] (c : Chunk V)
    (h : c.length = CHUNK_SIZE) :
    fromRLE (toRLE c) = some c ∧
    ∀ i < CHUNK_SIZE, (rleExpand (toRLE c)).getD i default = c.getD i default := by
  have hne : c ≠ [] := by
    intro hnil
    rw [hnil] at h
    simp [CHUNK_SIZE, CHUNK_WIDTH] at h
  have he := toRLE_expand c hne
  refine ⟨?_, ?_⟩
  · simp [fromRLE, he, h]
  · intro i _
    rw [he]

/-- Witness for C1 at the all-air chunk. -/
theorem rle_roundtrip_witness :
    fromRLE (toRLE (List.replicate CHUNK_SIZE Block.air)) =
      some (List.replicate CHUNK_SIZE Block.air) :=
  (rle_roundtrip (List.replicate CHUNK_SIZE Block.air) (by simp)).1

/-- C2: run-length encode correctness: for every chunk, `Chunk::to_rle` emits
no run with count 0; the counts sum to exactly `W³ = 4096`; consecutive runs
never carry the same value unless the earlier run's count reached the 65535
cap; and the final in-progress run is flushed as the last pair (the run list
is nonempty and its last pair carries the chunk's final voxel value). -/
theorem to_rle_runs {V : Type} [DecidableEq V] (c : Chunk V)
    (h : c.length = CHUNK_SIZE) :
    (∀ p ∈ toRLE c, p.1 ≠ 0)
    ∧ ((toRLE c).map Prod.fst).sum = CHUNK_SIZE
    ∧ List.Chain' (fun p q : Nat × V => p.2 = q.2 → p.1 = 65535) (toRLE c)
    ∧ toRLE c ≠ []
    ∧ (toRLE c).getLast?.map Prod.snd = c.getLast? := by
  cases c with
  | nil => simp [CHUNK_SIZE, CHUNK_WIDTH] at h
  | cons v rest =>
    rw [toRLE_cons]
    have hlen : rest.length = CHUNK_SIZE - 1 := by
      simp only [List.length_cons] at h
      omega
    refine ⟨?_, ?_, ?_, ?_, ?_⟩
    · exact fun p hp => (toRLEAux_pos 1 v rest Nat.one_pos p hp).ne'
    · rw [toRLEAux_sum, hlen]
      decide
    · exact toRLEAux_chain 1 v rest (by norm_num)
    · obtain ⟨cnt, hhd⟩ := toRLEAux_head 1 v rest
      intro hcon
      rw [hcon] at hhd
      exact Option.noConfusion hhd
    · rw [toRLEAux_getLast, getLast?_eq_getLastD (v :: rest) v (by simp),
        List.getLastD_cons]

/-- Witness for C2 at the all-air chunk. -/
theorem to_rle_runs_witness :
    (∀ p ∈ toRLE (List.replicate CHUNK_SIZE Block.air), p.1 ≠ 0)
    ∧ ((toRLE (List.replicate CHUNK_SIZE Block.air)).map Prod.fst).sum = CHUNK_SIZE
    ∧ List.Chain' (fun p q : Nat × Block => p.2 = q.2 → p.1 = 65535)
        (toRLE (List.replicate CHUNK_SIZE Block.air))
    ∧ toRLE (List.replicate CHUNK_SIZE Block.air) ≠ []
    ∧ (toRLE (List.replicate CHUNK_SIZE Block.air)).getLast?.map Prod.snd =
        (List.replicate CHUNK_SIZE Block.air).getLast? :=
  to_rle_runs (List.replicate CHUNK_SIZE Block.air) (by simp)

/-- C6: `Chunk::from_rle` decodes successfully exactly when the run counts of
its input (u16 counts, hence each at most 65535) sum to exactly `W³ = 4096`;
the decoded chunk is the in-order expansion of the runs; any other total hits
the fatal `assert_eq!` (modelled by `none`), never a truncated or padded
chunk. -/
theorem from_rle_size {V : Type} (rle : List (Nat × V))
    (hb : ∀ p ∈ rle, p.1 ≤ 65535) :
    ((fromRLE rle).isSome ↔ (rle.map Prod.fst).sum = CHUNK_SIZE)
    ∧ ∀ ch, fromRLE rle = some ch → ch = rleExpand rle := by
  have hlen := rleExpand_length rle
  constructor
  · by_cases hs : (rleExpand rle).length = CHUNK_SIZE
    · simp [fromRLE, hs, ← hlen]
    · simp only [fromRLE, if_neg hs]
      rw [← hlen]
      simp [hs]
  · intro ch hch
    simp only [fromRLE] at hch
    split at hch
    · exact (Option.some_inj.1 hch).symm
    · exact absurd hch (by simp)

/-- Witness for C6 at the single-run list `[(4096, Air)]`. -/
theorem from_rle_size_witness :
    ((fromRLE [((4096 : Nat), Block.air)]).isSome ↔
      ([((4096 : Nat), Block.air)].map Prod.fst).sum = CHUNK_SIZE)
    ∧ ∀ ch, fromRLE [((4096 : Nat), Block.air)] = some ch →
        ch = rleExpand [((4096 : Nat), Block.air)] :=
  from_rle_size [((4096 : Nat), Block.air)] (by decide)

end RLELemmas

section TerrainLemmas

/-- C5 counterexample: the claim's deep-region rule — opaque on the far side of
the iso-level band — fails on the code: at `wy = 0`, `height = 20`,
`density = 2/5` the voxel is deep (`0 < 20 - 16`) and the density is beyond
the band (`2/5 > 3/10`), yet `generate` classifies it as empty (`Air`), the
same as on the near side. -/
theorem claimed_deep_rule_false : ¬ claimedDeepRule := by
  intro hcl
  have hx := hcl 0 20 (2/5) (by norm_num) (by norm_num)
  have hb : generateBlock 0 20 (2/5) = Block.air := by
    unfold generateBlock
    norm_num
  rw [hb] at hx
  exact absurd hx (by decide)

/-- C5 (amended): the classification of `Chunk::<Block>::generate` by bands:
at or above the surface height the voxel is empty; `[height-4, height)` is
grass, `[height-8, height-4)` dirt, `[height-16, height-8)` stone; strictly
deeper, density outside the band `[-0.3, 0.3]` gives empty on BOTH sides,
and inside the band the result is `Block::lerp(Air, Stone, t)` with
`t = (density+0.3)/0.6`, whose threshold rule makes the cutoff sharp:
empty when `t < 0.5` (density < 0), opaque when `t ≥ 0.5` (density ≥ 0). -/
theorem generate_classification (wy height density : ℚ) :
    (height ≤ wy → generateBlock wy height density = Block.air)
    ∧ (height - 4 ≤ wy ∧ wy < height → generateBlock wy height density = Block.grass)
    ∧ (height - 8 ≤ wy ∧ wy < height - 4 → generateBlock wy height density = Block.dirt)
    ∧ (height - 16 ≤ wy ∧ wy < height - 8 → generateBlock wy height density = Block.stone)
    ∧ (wy < height - 16 → density < -(3/10) ∨ 3/10 < density →
        generateBlock wy height density = Block.air)
    ∧ (wy < height - 16 → -(3/10) ≤ density → density ≤ 3/10 →
        generateBlock wy height density =
          Block.lerp Block.air Block.stone ((density + 3/10) / (6/10))
        ∧ (density < 0 → generateBlock wy height density = Block.air)
        ∧ (0 ≤ density → generateBlock wy height density = Block.stone)) := by
  have hth : ((density + 3/10) / (6/10) < 1/2) ↔ density < 0 := by
    rw [div_lt_iff₀ (by norm_num)]
    constructor <;> intro h <;> linarith
  refine ⟨?_, ?_, ?_, ?_, ?_, ?_⟩
  · intro h
    unfold generateBlock
    rw [if_neg (by linarith), if_neg (by linarith), if_neg (by linarith),
      if_neg (by linarith)]
  · rintro ⟨h1, h2⟩
    unfold generateBlock
    rw [if_neg (by linarith), if_neg (by linarith), if_neg (by linarith),
      if_pos (by linarith)]
  · rintro ⟨h1, h2⟩
    unfold generateBlock
    rw [if_neg (by linarith), if_neg (by linarith), if_pos (by linarith)]
  · rintro ⟨h1, h2⟩
    unfold generateBlock
    rw [if_neg (by linarith), if_pos (by linarith)]
  · rintro h1 (h2 | h2)
    · unfold generateBlock
      rw [if_pos (by linarith), if_pos (by linarith)]
    · unfold generateBlock
      rw [if_pos (by linarith), if_neg (by linarith), if_pos (by linarith)]
  · intro h1 h2 h3
    have hmain : generateBlock wy height density =
        Block.lerp Block.air Block.stone ((density + 3/10) / (6/10)) := by
      unfold generateBlock
      rw [if_pos (by linarith), if_neg (by linarith), if_neg (by linarith)]
    refine ⟨hmain, ?_, ?_⟩
    · intro hd
      rw [hmain]
      unfold Block.lerp
      rw [if_pos (hth.2 hd)]
    · intro hd
      rw [hmain]
      unfold Block.lerp
      rw [if_neg (fun hcon => absurd (hth.1 hcon) (not_lt.2 hd))]

/-- Witness for C5's amended theorem at concrete deep voxels: beyond the band
the voxel is empty, in the upper half of the band it is stone, and just below
the surface it is grass. -/
theorem generate_classification_witness :
    generateBlock 0 20 (2/5) = Block.air
    ∧ generateBlock 0 20 (1/5) = Block.stone
    ∧ generateBlock 19 20 0 = Block.grass :=
  ⟨(generate_classification 0 20 (2/5)).2.2.2.2.1 (by norm_num) (Or.inr (by norm_num)),
   ((generate_classification 0 20 (1/5)).2.2.2.2.2 (by norm_num) (by norm_num)
     (by norm_num)).2.2 (by norm_num),
   (generate_classification 19 20 0).2.1 ⟨by norm_num, by norm_num⟩⟩

end TerrainLemmas

section StreamingLemmas

lemma mem_intRange {r : Nat} {d : Int} : d ∈ intRange r ↔ -(r : Int) ≤ d ∧ d ≤ r := by
  unfold intRange
  rw [List.mem_map]
  constructor
  · rintro ⟨i, hi, rfl⟩
    rw [List.mem_range] at hi
    constructor <;> omega
  · rintro ⟨h1, h2⟩
    exact ⟨(d + r).toNat, List.mem_range.2 (by omega), by omega⟩

lemma mem_desiredChunks {p q : ChunkPos} {r : Nat} :
    q ∈ desiredChunks p r ↔
      (q.1 - p.1) ^ 2 + (q.2.1 - p.2.1) ^ 2 + (q.2.2 - p.2.2) ^ 2 ≤ (r : Int) ^ 2 := by
  simp only [desiredChunks, List.mem_flatMap, List.mem_map, List.mem_filter,
    decide_eq_true_eq]
  constructor
  · rintro ⟨dx, hdx, dy, hdy, dz, ⟨hdz, hle⟩, rfl⟩
    simpa using hle
  · intro hle
    set dx := q.1 - p.1 with hdx
    set dy := q.2.1 - p.2.1 with hdy
    set dz := q.2.2 - p.2.2 with hdz
    have h2 : dy ^ 2 ≥ 0 := sq_nonneg dy
    have h3 : dz ^ 2 ≥ 0 := sq_nonneg dz
    have h1 : dx ^ 2 ≥ 0 := sq_nonneg dx
    have hbx : -(r : Int) ≤ dx ∧ dx ≤ r := by
      constructor <;> nlinarith [sq_nonneg (dx - r), sq_nonneg (dx + r)]
    have hby : -(r : Int) ≤ dy ∧ dy ≤ r := by
      constructor <;> nlinarith [sq_nonneg (dy - r), sq_nonneg (dy + r)]
    have hbz : -(r : Int) ≤ dz ∧ dz ≤ r := by
      constructor <;> nlinarith [sq_nonneg (dz - r), sq_nonneg (dz + r)]
    refine ⟨dx, mem_intRange.2 hbx, dy, mem_intRange.2 hby, dz,
      ⟨mem_intRange.2 hbz, hle⟩, ?_⟩
    simp [hdx, hdy, hdz]

/-- C7: on an observer-moved event at chunk `p`, the streaming manager's
desired set is exactly the spherical neighborhood
`dx² + dy² + dz² ≤ R²` around `p` (not the cubic box); in particular for
`R = 2` around `(0,0,0)` the set contains `(2,0,0)` (4 ≤ 4) but not
`(2,1,0)` (5 > 4). -/
theorem desired_set_spherical :
    (∀ (p q : ChunkPos) (r : Nat),
      q ∈ desiredChunks p r ↔
        (q.1 - p.1) ^ 2 + (q.2.1 - p.2.1) ^ 2 + (q.2.2 - p.2.2) ^ 2 ≤ (r : Int) ^ 2)
    ∧ ((2, 0, 0) : ChunkPos) ∈ desiredChunks (0, 0, 0) 2
    ∧ ((2, 1, 0) : ChunkPos) ∉ desiredChunks (0, 0, 0) 2 := by
  refine ⟨fun p q r => mem_desiredChunks, ?_, ?_⟩
  · exact mem_desiredChunks.2 (by norm_num)
  · intro hmem
    have := mem_desiredChunks.1 hmem
    norm_num at this

/-- Witness for C7 exercising the iff at a concrete triple. -/
theorem desired_set_spherical_witness :
    ((2, 0, 0) : ChunkPos) ∈ desiredChunks (0, 0, 0) 2 :=
  (desired_set_spherical.1 (0, 0, 0) (2, 0, 0) 2).2 (by norm_num)

lemma loadOne_iterate (n : Nat) (m : ChunkManager) (s : List ChunkPos) :
    ((loadOne^[n]) (m, s)).1.load_queue = m.load_queue.drop n
    ∧ ((loadOne^[n]) (m, s)).1.unload_queue = m.unload_queue := by
  induction n generalizing m s with
  | zero => simp
  | succ k ih =>
    rw [Function.iterate_succ_apply]
    cases hq : m.load_queue with
    | nil =>
      have hstep : loadOne (m, s) = (m, s) := by
        simp [loadOne, hq]
      rw [hstep]
      obtain ⟨h1, h2⟩ := ih m s
      refine ⟨?_, h2⟩
      rw [h1, hq]
      simp
    | cons pos rest =>
      by_cases hmem : pos ∈ m.loaded
      · have hstep : loadOne (m, s) = ({ m with load_queue := rest }, s) := by
          simp [loadOne, hq, hmem]
        rw [hstep]
        obtain ⟨h1, h2⟩ := ih { m with load_queue := rest } s
        refine ⟨?_, h2⟩
        rw [h1]
        simp
      · have hstep : loadOne (m, s) =
            ({ m with load_queue := rest, loaded := pos :: m.loaded }, s ++ [pos]) := by
          simp [loadOne, hq, hmem]
        rw [hstep]
        obtain ⟨h1, h2⟩ := ih { m with load_queue := rest, loaded := pos :: m.loaded }
          (s ++ [pos])
        refine ⟨?_, h2⟩
        rw [h1]
        simp

/-- C9: in one invocation of the chunk-loading system, at most
`CHUNKS_PER_FRAME` entries are popped from the load queue (the new load queue
is the old one with exactly `min CHUNKS_PER_FRAME length` front entries
removed), and when the unload queue is non-empty exactly one entry is popped
from it. -/
theorem load_tick_budget (m : ChunkManager) :
    (loadLocalChunks m).1.load_queue = m.load_queue.drop CHUNKS_PER_FRAME
    ∧ m.load_queue.length - (loadLocalChunks m).1.load_queue.length ≤ CHUNKS_PER_FRAME
    ∧ (m.unload_queue ≠ [] →
        (loadLocalChunks m).1.unload_queue.length + 1 = m.unload_queue.length) := by
  obtain ⟨h1, h2⟩ := loadOne_iterate CHUNKS_PER_FRAME m []
  have hlen : m.load_queue.length - (m.load_queue.drop CHUNKS_PER_FRAME).length ≤
      CHUNKS_PER_FRAME := by
    simp only [List.length_drop]
    omega
  unfold loadLocalChunks
  split
  · next heq =>
    refine ⟨h1, by rw [h1]; exact hlen, ?_⟩
    intro hne
    rw [heq] at h2
    exact absurd h2.symm hne
  · next x rest heq =>
    refine ⟨h1, by rw [h1]; exact hlen, ?_⟩
    intro hne
    rw [heq] at h2
    rw [← h2]
    simp

/-- Witness for C9 at a one-element load queue and one-element unload queue. -/
theorem load_tick_budget_witness :
    (loadLocalChunks ⟨[], [((0 : Int), (0 : Int), (0 : Int))], [5]⟩).1.unload_queue.length + 1 =
      (ChunkManager.mk [] [((0 : Int), (0 : Int), (0 : Int))] [5]).unload_queue.length :=
  (load_tick_budget ⟨[], [((0 : Int), (0 : Int), (0 : Int))], [5]⟩).2.2 (by simp)

end StreamingLemmas

section BoundsLemmas

lemma mem_allPositions {p : Nat × Nat × Nat} : p ∈ allPositions ↔ validPos p := by
  obtain ⟨x, y, z⟩ := p
  constructor
  · intro hp
    simp only [allPositions, List.mem_flatMap, List.mem_map, List.mem_range] at hp
    obtain ⟨a, ha, b, hb, c, hc, heq⟩ := hp
    obtain ⟨rfl, rfl, rfl⟩ : a = x ∧ b = y ∧ c = z := by
      simpa [Prod.ext_iff] using heq
    exact ⟨ha, hb, hc⟩
  · rintro ⟨hx, hy, hz⟩
    simp only [allPositions, List.mem_flatMap, List.mem_map, List.mem_range]
    exact ⟨x, hx, y, hy, z, hz, rfl⟩

/-- C10: in-bounds safety of the mesher: for every position with all components
in `[0, CHUNK_WIDTH)` and every face direction, every coordinate `cull_face`
passes to `Chunk::get` (edge coordinates being redirected to the neighbor's
opposite boundary layer rather than stepped out of range) again has all
components strictly below `CHUNK_WIDTH`, and every position visited by the
`generate_mesh` triple loop is in bounds — so `to_index`'s out-of-bounds debug
assertion is unreachable during meshing. -/
theorem cull_face_reads_in_bounds :
    (∀ p : Nat × Nat × Nat, validPos p → ∀ f : Face, ∀ q ∈ cullFaceReads p f, validPos q)
    ∧ ∀ p ∈ allPositions, validPos p := by
  constructor
  · rintro ⟨x, y, z⟩ hv f q hq
    simp only [validPos, CHUNK_WIDTH] at hv ⊢
    obtain ⟨hx, hy, hz⟩ := hv
    cases f <;>
      (simp only [cullFaceReads, CHUNK_WIDTH] at hq
       split at hq <;>
         (simp only [List.mem_singleton] at hq
          subst hq
          refine ⟨?_, ?_, ?_⟩ <;> (dsimp only; omega)))
  · exact fun p hp => mem_allPositions.1 hp

/-- Witness for C10: from position `(0,0,0)` the Left face redirects to the
neighbor boundary cell `(CHUNK_WIDTH - 1, 0, 0)`, which is in bounds. -/
theorem cull_face_reads_in_bounds_witness :
    validPos ((CHUNK_WIDTH - 1 : Nat), 0, 0) :=
  cull_face_reads_in_bounds.1 (0, 0, 0) (by decide) Face.left
    ((CHUNK_WIDTH - 1 : Nat), 0, 0) (by decide)

end BoundsLemmas

section MeshLemmas

variable {V : Type} [Voxel V]

lemma face_mem_ALL (f : Face) : f ∈ Face.ALL := by
  cases f <;> decide

lemma nodup_allPositions : allPositions.Nodup := by
  unfold allPositions
  rw [List.nodup_flatMap]
  constructor
  · intro x _
    rw [List.nodup_flatMap]
    constructor
    · intro y _
      exact (List.nodup_range _).map
        (fun z z' h => by simpa [Prod.ext_iff] using h)
    · refine (List.pairwise_lt_range _).imp ?_
      intro y y' hlt q hq hq'
      simp only [List.mem_map, List.mem_range] at hq hq'
      obtain ⟨z, _, rfl⟩ := hq
      obtain ⟨z', _, heq⟩ := hq'
      obtain ⟨-, h2, -⟩ : x = x ∧ y' = y ∧ z' = z := by simpa [Prod.ext_iff] using heq
      omega
  · refine (List.pairwise_lt_range _).imp ?_
    intro x x' hlt q hq hq'
    simp only [List.mem_flatMap, List.mem_map, List.mem_range] at hq hq'
    obtain ⟨y, _, z, _, rfl⟩ := hq
    obtain ⟨y', _, z', _, heq⟩ := hq'
    obtain ⟨h1, -, -⟩ : x' = x ∧ y' = y ∧ z' = z := by simpa [Prod.ext_iff] using heq
    omega

lemma nodup_generateMeshFaces (c : Chunk V) (nbrs : Neighbors V) :
    (generateMeshFaces c nbrs).Nodup := by
  unfold generateMeshFaces
  rw [List.nodup_flatMap]
  constructor
  · intro p _
    split
    · refine List.Nodup.map ?_ (List.Nodup.filter _ (by decide))
      intro f f' h
      simpa [Prod.ext_iff] using h
    · exact List.nodup_nil
  · refine nodup_allPositions.imp ?_
    intro p p' hne q hq hq'
    dsimp only at hq hq'
    apply hne
    have hp : q.1 = p := by
      split at hq
      · obtain ⟨f, -, rfl⟩ := List.mem_map.1 hq
        rfl
      · exact absurd hq (List.not_mem_nil q)
    have hp' : q.1 = p' := by
      split at hq'
      · obtain ⟨f, -, rfl⟩ := List.mem_map.1 hq'
        rfl
      · exact absurd hq' (List.not_mem_nil q)
    rw [← hp, hp']

lemma mem_generateMeshFaces {c : Chunk V} {nbrs : Neighbors V}
    {p : Nat × Nat × Nat} {f : Face} :
    (p, f) ∈ generateMeshFaces c nbrs ↔
      validPos p ∧ Voxel.is_opaque (chunkGet c p) = true ∧ cullFace c p f nbrs = false := by
  unfold generateMeshFaces
  rw [List.mem_flatMap]
  constructor
  · rintro ⟨q, hq, hin⟩
    split at hin
    · next hop =>
      obtain ⟨f', hf', heq⟩ := List.mem_map.1 hin
      obtain ⟨h1, h2⟩ : q = p ∧ f' = f := by simpa [Prod.ext_iff] using heq
      subst h1
      subst h2
      obtain ⟨-, hcull⟩ := List.mem_filter.1 hf'
      exact ⟨mem_allPositions.1 hq, hop, by simpa using hcull⟩
    · exact absurd hin (List.not_mem_nil _)
  · rintro ⟨hv, hop, hcull⟩
    refine ⟨p, mem_allPositions.2 hv, ?_⟩
    rw [if_pos hop]
    exact List.mem_map.2 ⟨f, List.mem_filter.2 ⟨face_mem_ALL f, by simp [hcull]⟩, rfl⟩

lemma length_facePositions (f : Face) (c0 c1 : ℚ × ℚ × ℚ) :
    (facePositions f c0 c1).length = 4 := by
  obtain ⟨x0, y0, z0⟩ := c0
  obtain ⟨x1, y1, z1⟩ := c1
  cases f <;> rfl

lemma length_flatMap_const {α β : Type} (l : List α) (g : α → List β) (k : Nat)
    (h : ∀ x ∈ l, (g x).length = k) : (l.flatMap g).length = k * l.length := by
  induction l with
  | nil => simp
  | cons a t ih =>
    rw [List.flatMap_cons, List.length_append, h a (List.mem_cons_self a t),
      ih (fun x hx => h x (List.mem_cons_of_mem a hx)), List.length_cons, Nat.mul_succ]
    omega

lemma count_eq_one_of_nodup {α : Type} [BEq α] [LawfulBEq α] {l : List α} {a : α}
    (hn : l.Nodup) (ha : a ∈ l) : l.count a = 1 := by
  induction l with
  | nil => exact absurd ha (List.not_mem_nil a)
  | cons b t ih =>
    rcases List.mem_cons.1 ha with rfl | hmem
    · rw [List.count_cons_self, List.count_eq_zero.2 (List.nodup_cons.1 hn).1]
    · have hne : a ≠ b := by
        rintro rfl
        exact (List.nodup_cons.1 hn).1 hmem
      rw [List.count_cons_of_ne hne, ih (List.nodup_cons.1 hn).2 hmem]

lemma cullFace_atEdge_none {c : Chunk V} {nbrs : Neighbors V} {p : Nat × Nat × Nat}
    {f : Face} (he : atEdge p f) (hn : nbrs f = none) :
    cullFace c p f nbrs = false := by
  obtain ⟨x, y, z⟩ := p
  cases f <;>
    (simp only [atEdge] at he
     simp only [cullFace]
     rw [if_pos he, hn])

lemma cullFace_interior {c : Chunk V} {nbrs : Neighbors V} {p : Nat × Nat × Nat}
    {f : Face} (he : ¬ atEdge p f) :
    cullFace c p f nbrs = Voxel.is_opaque (chunkGet c (adjacentPos p f)) := by
  obtain ⟨x, y, z⟩ := p
  cases f <;>
    (simp only [atEdge] at he
     simp only [cullFace, adjacentPos]
     rw [if_neg he])

/-- C3: face visibility: an opaque voxel at an in-bounds position emits exactly
one unit quad per face direction if and only if `cull_face` is false there —
i.e. the adjacent cell (read from the neighbor chunk's opposite boundary layer
at a chunk edge) is not opaque; a boundary face with an absent neighbor
reference IS emitted; a voxel whose six same-chunk neighbors are all opaque
emits nothing; non-opaque voxels emit nothing; and each emitted quad carries
4 vertices and 6 indices (two triangles). -/
theorem mesh_face_visibility (c : Chunk V) (nbrs : Neighbors V)
    (p : Nat × Nat × Nat) (f : Face) (hp : validPos p) :
    ((generateMeshFaces c nbrs).count (p, f) =
      if Voxel.is_opaque (chunkGet c p) = true ∧ cullFace c p f nbrs = false
      then 1 else 0)
    ∧ (Voxel.is_opaque (chunkGet c p) = false → (p, f) ∉ generateMeshFaces c nbrs)
    ∧ (atEdge p f → nbrs f = none → Voxel.is_opaque (chunkGet c p) = true →
        (p, f) ∈ generateMeshFaces c nbrs)
    ∧ ((∀ f' : Face, ¬ atEdge p f') →
        (∀ f' : Face, Voxel.is_opaque (chunkGet c (adjacentPos p f')) = true) →
        ∀ f' : Face, (p, f') ∉ generateMeshFaces c nbrs)
    ∧ (generateMeshPositions c nbrs).length = 4 * (generateMeshFaces c nbrs).length
    ∧ (generateMeshIndices c nbrs).length = 6 * (generateMeshFaces c nbrs).length := by
  refine ⟨?_, ?_, ?_, ?_, ?_, ?_⟩
  · by_cases hcond : Voxel.is_opaque (chunkGet c p) = true ∧ cullFace c p f nbrs = false
    · rw [if_pos hcond]
      exact count_eq_one_of_nodup (nodup_generateMeshFaces c nbrs)
        (mem_generateMeshFaces.2 ⟨hp, hcond.1, hcond.2⟩)
    · rw [if_neg hcond]
      refine List.count_eq_zero.2 fun hmem => ?_
      obtain ⟨-, h1, h2⟩ := mem_generateMeshFaces.1 hmem
      exact hcond ⟨h1, h2⟩
  · intro hop hmem
    obtain ⟨-, h1, -⟩ := mem_generateMeshFaces.1 hmem
    rw [hop] at h1
    exact Bool.noConfusion h1
  · intro he hn hop
    exact mem_generateMeshFaces.2 ⟨hp, hop, cullFace_atEdge_none he hn⟩
  · intro hint hopadj f' hmem
    obtain ⟨-, -, hcull⟩ := mem_generateMeshFaces.1 hmem
    rw [cullFace_interior (hint f'), hopadj f'] at hcull
    exact Bool.noConfusion hcull
  · unfold generateMeshPositions
    exact length_flatMap_const _ _ 4 fun q _ => length_facePositions q.2 _ _
  · unfold generateMeshIndices
    rw [length_flatMap_const (List.range (generateMeshFaces c nbrs).length)
      (fun i => quadIndices (4 * i)) 6 (fun i _ => rfl), List.length_range]

/-- Witness for C3 at the all-air chunk: the non-opaque voxel at the origin
emits no Left-face quad. -/
theorem mesh_face_visibility_witness :
    (generateMeshFaces airChunk (noNeighbors Block)).count ((0, 0, 0), Face.left) = 0 :=
  ((mesh_face_visibility airChunk (noNeighbors Block) (0, 0, 0) Face.left
    (by decide)).1).trans (if_neg (by decide))

/-- C8: atlas UV scenario: in the 3-variant voxel set (one empty plus two
opaque variants), the variant with `raw() == 1` meshed on the Top face
direction gets the UV rectangle `u0 = 1 * (1/2)`, `v0 = 4 * (1/6)`,
`u1 = u0 + 1/2`, `v1 = v0 + 1/6` — the atlas column from the variant's
position in `all()` (equal to its raw id) over `all().len() - 1 = 2` columns,
and the fixed Top row 4 of the 6 equal-height rows. -/
theorem atlas_uv_scenario :
    Voxel.raw TVox.solidA = 1
    ∧ (Voxel.all (V := TVox)).length = 3
    ∧ uvRect TVox TVox.solidA Face.top =
        (1 * (1 / 2 : ℚ), 4 * (1 / 6 : ℚ), 1 * (1 / 2 : ℚ) + 1 / 2,
          4 * (1 / 6 : ℚ) + 1 / 6) := by
  refine ⟨rfl, rfl, ?_⟩
  have hidx : (Voxel.all (V := TVox)).indexOf TVox.solidA = 1 := rfl
  have hlen : (Voxel.all (V := TVox)).length - 1 = 2 := rfl
  simp only [uvRect, hidx, hlen, faceRow]
  norm_num

end MeshLemmas

section GreedyLemmas

lemma voxel_is_opaque_air : Voxel.is_opaque Block.air = false := rfl

lemma airChunk_get (p : Nat × Nat × Nat) : chunkGet airChunk p = Block.air := by
  unfold chunkGet airChunk
  rcases Nat.lt_or_ge (toIndex p) CHUNK_SIZE with h | h
  · simp [List.getD_eq_getElem?_getD, List.getElem?_replicate, h]
  · rw [List.getD_eq_default _ _ (by simpa using h)]
    rfl

lemma generateMeshFaces_airChunk :
    generateMeshFaces airChunk (noNeighbors Block) = [] := by
  unfold generateMeshFaces
  refine List.flatMap_eq_nil_iff.2 fun p _ => ?_
  rw [airChunk_get, if_neg (by decide)]

lemma cullFace_airChunk (p : Nat × Nat × Nat) (f : Face) :
    cullFace airChunk p f (noNeighbors Block) = false := by
  obtain ⟨x, y, z⟩ := p
  cases f <;> simp [cullFace, noNeighbors, airChunk_get, voxel_is_opaque_air]

lemma extendWidth_ge {V : Type} [Voxel V] (ch : Chunk V) (nbrs : Neighbors V)
    (face : Face) (a b cc : Nat) (block : V) (mask : Nat) :
    ∀ fuel width, width ≤ extendWidth ch nbrs face a b cc block mask fuel width := by
  intro fuel
  induction fuel with
  | zero => exact fun width => Nat.le_refl width
  | succ k ih =>
    intro width
    rw [extendWidth]
    split
    · split
      · exact Nat.le_refl width
      · exact Nat.le_trans (Nat.le_succ width) (ih (width + 1))
    · exact Nat.le_refl width

lemma extendHeight_ge {V : Type} [Voxel V] (ch : Chunk V) (nbrs : Neighbors V)
    (face : Face) (a b cc width : Nat) (mask : Nat) :
    ∀ fuel height, height ≤ extendHeight ch nbrs face a b cc width mask fuel height := by
  intro fuel
  induction fuel with
  | zero => exact fun height => Nat.le_refl height
  | succ k ih =>
    intro height
    rw [extendHeight]
    split
    · split
      · exact Nat.le_refl height
      · exact Nat.le_trans (Nat.le_succ height) (ih (height + 1))
    · exact Nat.le_refl height

lemma greedyCell_preserve {V : Type} [Voxel V] (ch : Chunk V) (nbrs : Neighbors V)
    (face : Face) (cc b a : Nat) (st : Nat × List GreedyQuad)
    (h : GoodGreedyState st) : GoodGreedyState (greedyCell ch nbrs face cc b a st) := by
  simp only [greedyCell]
  split_ifs with hmask hcull
  · exact h
  · exact h
  refine ⟨by simp [stateQuads], ?_⟩
  intro q hq
  simp only [stateQuads] at hq
  rcases List.mem_append.1 hq with hq | hq
  · exact h.2 q hq
  · rw [List.mem_singleton] at hq
    subst hq
    exact ⟨extendWidth_ge _ _ _ _ _ _ _ _ _ 1, extendHeight_ge _ _ _ _ _ _ _ _ _ 1⟩

lemma foldl_preserve {α β : Type} (P : α → Prop) (f : α → β → α) (l : List β)
    (hstep : ∀ st x, P st → P (f st x)) :
    ∀ init, P init → P (l.foldl f init) := by
  induction l with
  | nil => exact fun init h => h
  | cons x t ih => exact fun init h => ih (f init x) (hstep init x h)

lemma greedyCell_emits {V : Type} [Voxel V] (ch : Chunk V) (nbrs : Neighbors V)
    (face : Face) (cc b a : Nat) (st : Nat × List GreedyQuad)
    (hmask : maskGet st.1 a b = false)
    (hcull : cullFace ch (a, b, cc) face nbrs = false)
    (hqs : ∀ q ∈ st.2, 1 ≤ q.width ∧ 1 ≤ q.height) :
    GoodGreedyState (greedyCell ch nbrs face cc b a st) := by
  simp only [greedyCell]
  rw [if_neg (by rw [hmask]; exact Bool.false_ne_true),
    if_neg (by rw [hcull]; exact Bool.false_ne_true)]
  refine ⟨by simp [stateQuads], fun q hq => ?_⟩
  simp only [stateQuads] at hq
  rcases List.mem_append.1 hq with hq | hq
  · exact hqs q hq
  · rw [List.mem_singleton] at hq
    subst hq
    exact ⟨extendWidth_ge _ _ _ _ _ _ _ _ _ 1, extendHeight_ge _ _ _ _ _ _ _ _ _ 1⟩

lemma foldl_preserve_cons {α β : Type} (P : α → Prop) (f : α → β → α) (x : β)
    (t : List β) (init : α) (hstep : ∀ st y, P st → P (f st y)) (hx : P (f init x)) :
    P ((x :: t).foldl f init) := by
  rw [List.foldl_cons]
  exact foldl_preserve P f t hstep (f init x) hx

lemma greedyFold_good :
    GoodGreedyState
      ((List.range CHUNK_WIDTH).foldl (fun st cc =>
        (List.range CHUNK_WIDTH).foldl (fun st2 b =>
          (List.range CHUNK_WIDTH).foldl (fun st3 a =>
            greedyCell airChunk (noNeighbors Block) Face.left cc b a st3) st2) st)
        (0, [])) := by
  have hcell : ∀ (cc b a : Nat) (st : Nat × List GreedyQuad), GoodGreedyState st →
      GoodGreedyState (greedyCell airChunk (noNeighbors Block) Face.left cc b a st) :=
    fun cc b a st h => greedyCell_preserve _ _ _ cc b a st h
  have hstep1 : GoodGreedyState
      (greedyCell airChunk (noNeighbors Block) Face.left 0 0 0 (0, [])) :=
    greedyCell_emits _ _ _ 0 0 0 (0, []) rfl (cullFace_airChunk (0, 0, 0) Face.left)
      (fun q hq => absurd hq (List.not_mem_nil q))
  have hrange : List.range CHUNK_WIDTH =
      0 :: [1, 2, 3, 4, 5, 6, 7, 8, 9, 10, 11, 12, 13, 14, 15] := by decide
  rw [hrange]
  refine foldl_preserve_cons GoodGreedyState _ 0 _ (0, [])
    (fun st cc h => foldl_preserve GoodGreedyState _ _
      (fun st2 b h2 => foldl_preserve GoodGreedyState _ _
        (fun st3 a h3 => hcell cc b a st3 h3) st2 h2) st h) ?_
  show GoodGreedyState
    ((0 :: [1, 2, 3, 4, 5, 6, 7, 8, 9, 10, 11, 12, 13, 14, 15]).foldl
      (fun st2 b =>
        (0 :: [1, 2, 3, 4, 5, 6, 7, 8, 9, 10, 11, 12, 13, 14, 15]).foldl
          (fun st3 a =>
            greedyCell airChunk (noNeighbors Block) Face.left 0 b a st3) st2)
      (0, []))
  refine foldl_preserve_cons GoodGreedyState _ 0 _ (0, [])
    (fun st2 b h2 => foldl_preserve GoodGreedyState _ _
      (fun st3 a h3 => hcell 0 b a st3 h3) st2 h2) ?_
  show GoodGreedyState
    ((0 :: [1, 2, 3, 4, 5, 6, 7, 8, 9, 10, 11, 12, 13, 14, 15]).foldl
      (fun st3 a =>
        greedyCell airChunk (noNeighbors Block) Face.left 0 0 a st3) (0, []))
  exact foldl_preserve_cons GoodGreedyState _ 0 _ (0, [])
    (fun st3 a h3 => hcell 0 0 a st3 h3) hstep1

lemma greedyQuads_airChunk_good :
    greedyQuads airChunk Face.left (noNeighbors Block) ≠ []
    ∧ ∀ q ∈ greedyQuads airChunk Face.left (noNeighbors Block),
        1 ≤ q.width ∧ 1 ≤ q.height :=
  ⟨greedyFold_good.1, greedyFold_good.2⟩

lemma length_quadUnitCells (f : Face) (q : GreedyQuad) :
    (quadUnitCells f q).length = q.height * q.width := by
  unfold quadUnitCells
  rw [length_flatMap_const (List.range q.width) _ q.height
    (fun w _ => by rw [List.length_map, List.length_range]), List.length_range]

/-- C4 (code bug): the greedy and naive meshers do not produce the same
decomposed unit-face surface. On the all-air chunk with every neighbor absent,
the naive mesher emits no faces (no voxel is opaque), while `greedy_quads` for
the Left direction — which never tests voxel opacity, only `cull_face` —
emits at least one merged quad, every emitted quad having extent at least 1×1,
so its decomposition into unit faces is nonempty: the two surfaces differ. -/
theorem greedy_naive_diverge :
    generateMeshFaces airChunk (noNeighbors Block) = []
    ∧ greedyQuads airChunk Face.left (noNeighbors Block) ≠ []
    ∧ ∀ q ∈ greedyQuads airChunk Face.left (noNeighbors Block),
        (quadUnitCells Face.left q).length = q.height * q.width
        ∧ 1 ≤ q.width ∧ 1 ≤ q.height := by
  obtain ⟨h1, h2⟩ := greedyQuads_airChunk_good
  exact ⟨generateMeshFaces_airChunk, h1,
    fun q hq => ⟨length_quadUnitCells _ _, (h2 q hq).1, (h2 q hq).2⟩⟩

/-- Witness for C4's closed conjuncts: the naive mesh of the all-air chunk is
empty while the greedy quad list is not. -/
theorem greedy_naive_diverge_witness :
    generateMeshFaces airChunk (noNeighbors Block) = []
    ∧ greedyQuads airChunk Face.left (noNeighbors Block) ≠ [] :=
  ⟨greedy_naive_diverge.1, greedy_naive_diverge.2.1⟩

end GreedyLemmas


end VoxelGame
